import Mathlib

/-!
# Verification of the SCST training loop (`train_scst.py`)

A shallow embedding of the Self-Critical Sequence Training script.  Token
sequences are lists of naturals; BLEU-like scores are rationals; per-step
decoder output distributions (logits rows over the vocabulary) are lists of
rationals.  The opaque neural network is represented by its observable
outputs: for each training example we are given the greedy-decode token
sequence and the stream of sampled trajectories that successive calls to
`decode_chain_sampling` would return.  The reward function
`utils.calc_bleu_many` is passed in as a parameter `bleu` of the
configuration (its own code is modelled separately, see `calc_bleu_many`
below).  Real-valued (transcendental) computation appears only in the loss,
embedded over `ℝ`.
-/

namespace SCST

/-- A sampled decoding trajectory: the per-step output distributions
(`r_sample`, one logits row per generated token) and the generated token ids
(`actions`), as returned by `net.decode_chain_sampling`. -/
structure Trajectory where
  policies : List (List ℚ)
  actions : List Nat
deriving Repr

/-- One training example of a batch, together with the decoder outputs the
opaque network produces for it: `refs` is `output_batch[idx]` (each reference
still carrying its leading `#BEG` token), `greedyActions` the token sequence
from `decode_chain_argmax`, and `samples` the stream of trajectories that
successive `decode_chain_sampling` calls return. -/
structure ExampleInput where
  refs : List (List Nat)
  greedyActions : List Nat
  samples : List Trajectory
deriving Repr

/-- Run configuration: the `--disable-skip` flag, the `--samples` count and
the reward function `utils.calc_bleu_many` (candidate tokens, reference
sequences) ↦ score. -/
structure Config where
  disableSkip : Bool
  numSamples : Nat
  bleu : List Nat → List (List Nat) → ℚ

/-- Per-epoch mutable state of the training loop (lines 99–105 of
`train_scst.py`): the diagnostic flag `dial_shown`, the sample counters and
the per-epoch BLEU accumulators. -/
structure EpochState where
  dial_shown : Bool
  total_samples : Nat
  skipped_samples : Nat
  bleus_argmax : List ℚ
  bleus_sample : List ℚ
deriving Repr

/-- Per-batch accumulators (lines 113–115): `net_policies` keeps one entry
per recorded sampled trajectory (the tensors later concatenated by
`torch.cat`), `net_actions` and `net_advantages` are flat lists. -/
structure BatchAcc where
  net_policies : List (List (List ℚ))
  net_actions : List Nat
  net_advantages : List ℚ
deriving Repr

/-- The `ref_indices` of an example: its references with the leading `#BEG`
token stripped (lines 120–123). -/
def refIndicesOf (ex : ExampleInput) : List (List Nat) :=
  ex.refs.map (fun indices => indices.drop 1)

/-- The skip threshold of line 132: the literal `0.99` as a rational. -/
def SKIP_THRESHOLD : ℚ := mkRat 99 100

/-- The skip condition of line 132: skipping enabled and the greedy BLEU
strictly above `0.99`. -/
def skips (cfg : Config) (ex : ExampleInput) : Bool :=
  !cfg.disableSkip &&
    decide (SKIP_THRESHOLD < cfg.bleu ex.greedyActions (refIndicesOf ex))

/-- One iteration of the sampling loop (lines 145–158): score the sampled
trajectory, append its logits to `net_policies`, its tokens to
`net_actions`, the broadcast advantage `sample_bleu - argmax_bleu` (one copy
per generated token) to `net_advantages`, and record `sample_bleu`. -/
def sampleStep (cfg : Config) (ref_indices : List (List Nat)) (argmax_bleu : ℚ)
    (st : EpochState × BatchAcc) (traj : Trajectory) : EpochState × BatchAcc :=
  let sample_bleu := cfg.bleu traj.actions ref_indices
  ({ st.1 with bleus_sample := st.1.bleus_sample ++ [sample_bleu] },
   { net_policies := st.2.net_policies ++ [traj.policies],
     net_actions := st.2.net_actions ++ traj.actions,
     net_advantages :=
       st.2.net_advantages ++ List.replicate traj.actions.length (sample_bleu - argmax_bleu) })

/-- Processing of one example of a batch (lines 118–159): count it, score
the greedy decode against the stripped references, record `argmax_bleu`;
then either skip (increment `skipped_samples`, contribute nothing) or run
the sampling loop and finally set `dial_shown`. -/
def processExample (cfg : Config) (st : EpochState × BatchAcc) (ex : ExampleInput) :
    EpochState × BatchAcc :=
  let argmax_bleu := cfg.bleu ex.greedyActions (refIndicesOf ex)
  let es1 : EpochState :=
    { st.1 with
      total_samples := st.1.total_samples + 1,
      bleus_argmax := st.1.bleus_argmax ++ [argmax_bleu] }
  if skips cfg ex then
    ({ es1 with skipped_samples := es1.skipped_samples + 1 }, st.2)
  else
    let p := (ex.samples.take cfg.numSamples).foldl
      (sampleStep cfg (refIndicesOf ex) argmax_bleu) (es1, st.2)
    ({ p.1 with dial_shown := true }, p.2)

/-- The freshly reset per-batch accumulators of lines 113–115. -/
def accInit : BatchAcc :=
  { net_policies := [], net_actions := [], net_advantages := [] }

/-- The per-example loop of one batch, starting from freshly reset
accumulators (lines 113–159). -/
def processBatch (cfg : Config) (st : EpochState) (batch : List ExampleInput) :
    EpochState × BatchAcc :=
  batch.foldl (processExample cfg) (st, accInit)

/-- The epoch-state initialisation of lines 99–105: `dial_shown = False`,
zeroed counters, empty BLEU accumulators. -/
def initEpochState : EpochState :=
  { dial_shown := false, total_samples := 0, skipped_samples := 0,
    bleus_argmax := [], bleus_sample := [] }

/-- The `F.log_softmax` of one logits row, evaluated at column `j`
(log-softmax over the vocabulary dimension). -/
noncomputable def logSoftmaxAt (row : List ℚ) (j : Nat) : ℝ :=
  ((row.getD j 0 : ℚ) : ℝ) - Real.log ((row.map (fun x => Real.exp ((x : ℚ) : ℝ))).sum)

/-- The policy loss of lines 164–169: `policies_v` is the concatenation of
the recorded logits tensors, and the loss is the negative mean over
`i < len(net_actions)` of `adv_v[i] * log_softmax(policies_v)[i, actions_t[i]]`. -/
noncomputable def loss_policy_v (policies_v : List (List ℚ)) (actions_t : List Nat)
    (adv_v : List ℚ) : ℝ :=
  -(((List.range actions_t.length).map
      (fun i => ((adv_v.getD i 0 : ℚ) : ℝ) *
        logSoftmaxAt (policies_v.getD i []) (actions_t.getD i 0))).sum
    / (actions_t.length : ℝ))

/-- Outcome of one batch iteration: the updated epoch state, the (possibly
updated) model parameters, and the scalars handed to the metrics tracker —
`none` when the batch was abandoned by the empty-policy guard. -/
structure BatchOutcome (P : Type) where
  es : EpochState
  params : P
  tracked : Option (List ℚ × ℝ)

/-- One full batch iteration (lines 107–177): process the examples; if no
sampled trajectory was recorded (`net_policies` empty, line 161) abandon the
batch — parameters untouched, nothing tracked; otherwise concatenate the
accumulators, compute the loss and apply one optimiser step (modelled by the
abstract `opt_step`). -/
noncomputable def batchUpdate {P : Type} (cfg : Config) (opt_step : P → ℝ → P)
    (st : EpochState) (params : P) (batch : List ExampleInput) : BatchOutcome P :=
  let r := processBatch cfg st batch
  if r.2.net_policies = [] then
    { es := r.1, params := params, tracked := none }
  else
    let loss := loss_policy_v r.2.net_policies.flatten r.2.net_actions r.2.net_advantages
    { es := r.1, params := opt_step params loss,
      tracked := some (r.2.net_advantages, loss) }

/-- The advantage broadcast to every token of one sampled trajectory of an
example: `sample_bleu - argmax_bleu` (line 157). -/
def trajAdvantage (cfg : Config) (ex : ExampleInput) (t : Trajectory) : ℚ :=
  cfg.bleu t.actions (refIndicesOf ex) - cfg.bleu ex.greedyActions (refIndicesOf ex)

/-- The sampled trajectories a batch records, in order, paired with their
broadcast advantages: the taken samples of every non-skipped example. -/
def recordedOf (cfg : Config) (batch : List ExampleInput) : List (Trajectory × ℚ) :=
  ((batch.filter (fun ex => !(skips cfg ex))).map
    (fun ex => (ex.samples.take cfg.numSamples).map
      (fun t => (t, trajAdvantage cfg ex t)))).flatten

/-- The loss as the specification describes it, written per trajectory: a
second definition following the spec's words, to be compared with
`loss_policy_v` (which follows the code).  For one recorded trajectory, the
list of its tokens' terms: advantage times the log-softmax probability of
the actually-generated token under that trajectory's own distribution. -/
noncomputable def specTrajectoryTerms (p : Trajectory × ℚ) : List ℝ :=
  (List.range p.1.actions.length).map
    (fun k => ((p.2 : ℚ) : ℝ) * logSoftmaxAt (p.1.policies.getD k []) (p.1.actions.getD k 0))

/-- Spec-side loss: negative mean, over every generated token of every
recorded sampled trajectory, of advantage × log-probability. -/
noncomputable def specLoss (recorded : List (Trajectory × ℚ)) : ℝ :=
  -(((recorded.map specTrajectoryTerms).flatten).sum
    / (((recorded.map (fun p => p.1.actions.length)).sum : ℕ) : ℝ))

/-- The best-score update of lines 187–190: update (and request a
best-checkpoint save) exactly when the tracker is still unset or the new
test metric strictly exceeds it.  Returns the new tracker value and whether
a save was requested. -/
def updateBest (best_bleu : Option ℚ) (bleu_test : ℚ) : Option ℚ × Bool :=
  match best_bleu with
  | none => (some bleu_test, true)
  | some b => if b < bleu_test then (some bleu_test, true) else (some b, false)

/-- The tracker's initial value (line 96: `best_bleu = None`). -/
def best_bleu_init : Option ℚ := none

/-- The tracker value after a sequence of per-epoch test metrics, each
applied by `updateBest` once per epoch. -/
def bestAfter (tests : List ℚ) (b : Option ℚ) : Option ℚ :=
  tests.foldl (fun bb t => (updateBest bb t).1) b

/-- The evaluation network interface used by `run_test`: the opaque
encode / greedy-decode primitives of the sequence model. -/
structure Net (E : Type) where
  encode : List Nat → E
  decode_chain_argmax : E → List Nat

/-- The evaluation runner `run_test` (lines 27–46): greedy-decode every held-out pair, score it
against the `#BEG`-stripped references, and return the mean score.  The
final division `bleu_sum / bleu_count` is fallible (Python raises
`ZeroDivisionError` when `bleu_count` is 0), so the metric is an `Option`;
the network is threaded through and returned to make its (non-)mutation
explicit. -/
def run_test {E : Type} (test_data : List (List Nat × List (List Nat))) (net : Net E)
    (bleu : List Nat → List (List Nat) → ℚ) : Option ℚ × Net E :=
  let r := test_data.foldl
    (fun (acc : ℚ × Nat) p =>
      let tokens := net.decode_chain_argmax (net.encode p.1)
      let ref_indices := p.2.map (fun indices => indices.drop 1)
      (acc.1 + bleu tokens ref_indices, acc.2 + 1))
    (0, 0)
  (if r.2 = 0 then none else some (r.1 / (r.2 : ℚ)), net)

/-- The score `run_test` computes for one held-out pair. -/
def testScore {E : Type} (net : Net E) (bleu : List Nat → List (List Nat) → ℚ)
    (p : List Nat × List (List Nat)) : ℚ :=
  bleu (net.decode_chain_argmax (net.encode p.1)) (p.2.map (fun indices => indices.drop 1))

/-- Modelled from the spec: `utils.calc_bleu_many` is code of this
repository that is not under `src/` (only its caller `train_scst.py` is).
The spec's Reward Scorer contract: given a generated sequence and reference
sequences, return the maximum pairwise similarity between the generated
sequence and each reference (best-of-N), and return the minimum score `0`
of the `[0,1]` range for an empty generated sequence instead of failing.
The pairwise similarity is the parameter `sim`. -/
def calc_bleu_many (sim : List Nat → List Nat → ℚ) (cand_seq : List Nat)
    (ref_sequences : List (List Nat)) : ℚ :=
  if cand_seq = [] then 0
  else
    match ref_sequences.map (sim cand_seq) with
    | [] => 0
    | s :: rest => rest.foldl max s

/-- Whether the code would emit the one-per-epoch diagnostic log block
(lines 136–143) for this example: it is not skipped and the flag is still
unset at its turn. -/
def exampleLogged (cfg : Config) (st : EpochState × BatchAcc) (ex : ExampleInput) : Bool :=
  !(skips cfg ex) && !st.1.dial_shown

/-- How many examples of a list have their diagnostics logged when processed
sequentially from state `st`. -/
def loggedCount (cfg : Config) (st : EpochState × BatchAcc) :
    List ExampleInput → Nat
  | [] => 0
  | ex :: rest =>
    (if exampleLogged cfg st ex then 1 else 0) +
      loggedCount cfg (processExample cfg st ex) rest

/-- How many examples of a whole epoch (a list of batches, each starting
with freshly reset accumulators but the epoch state threaded through) have
their diagnostics logged. -/
def epochLoggedCount (cfg : Config) (es : EpochState) :
    List (List ExampleInput) → Nat
  | [] => 0
  | batch :: rest =>
    loggedCount cfg (es, accInit) batch +
      epochLoggedCount cfg (processBatch cfg es batch).1 rest

/-- The sampled trajectories one example records (empty when skipped),
paired with their broadcast advantages. -/
def exRecorded (cfg : Config) (ex : ExampleInput) : List (Trajectory × ℚ) :=
  if skips cfg ex then []
  else (ex.samples.take cfg.numSamples).map (fun t => (t, trajAdvantage cfg ex t))

/-! Concrete inputs used to instantiate the theorems below. -/

/-- A run configuration whose reward function always returns `1`, so every
example is skipped (skip enabled). -/
def cfgAllSkip : Config := { disableSkip := false, numSamples := 4, bleu := fun _ _ => 1 }

/-- A run configuration whose reward function always returns `0`, so no
example is ever skipped. -/
def cfgNoSkip : Config := { disableSkip := false, numSamples := 1, bleu := fun _ _ => 0 }

/-- A trivial example with no references, empty greedy decode and no
sample stream. -/
def exEmpty : ExampleInput := { refs := [], greedyActions := [], samples := [] }

/-- An example whose sample stream holds one single-token trajectory with an
aligned one-row distribution. -/
def exOneSample : ExampleInput :=
  { refs := [[0, 1]], greedyActions := [2],
    samples := [{ policies := [[0, 0, 0]], actions := [1] }] }

/-- A concrete evaluation network over `Nat` encodings. -/
def netId : Net Nat := { encode := fun l => l.length, decode_chain_argmax := fun _ => [1] }

/-! ## Helper lemmas about the accumulators -/

lemma foldl_sampleStep_spec (cfg : Config) (ref : List (List Nat)) (arg : ℚ) :
    ∀ (l : List Trajectory) (st : EpochState × BatchAcc),
      (l.foldl (sampleStep cfg ref arg) st).1.dial_shown = st.1.dial_shown ∧
      (l.foldl (sampleStep cfg ref arg) st).1.skipped_samples = st.1.skipped_samples ∧
      (l.foldl (sampleStep cfg ref arg) st).2.net_policies
        = st.2.net_policies ++ l.map (fun t => t.policies) ∧
      (l.foldl (sampleStep cfg ref arg) st).2.net_actions
        = st.2.net_actions ++ (l.map (fun t => t.actions)).flatten ∧
      (l.foldl (sampleStep cfg ref arg) st).2.net_advantages
        = st.2.net_advantages
            ++ (l.map (fun t =>
                  List.replicate t.actions.length (cfg.bleu t.actions ref - arg))).flatten
  | [], st => by simp
  | traj :: rest, st => by
    obtain ⟨h1, h2, h3, h4, h5⟩ :=
      foldl_sampleStep_spec cfg ref arg rest (sampleStep cfg ref arg st traj)
    refine ⟨?_, ?_, ?_, ?_, ?_⟩
    · rw [List.foldl_cons, h1]; simp [sampleStep]
    · rw [List.foldl_cons, h2]; simp [sampleStep]
    · rw [List.foldl_cons, h3]; simp [sampleStep, List.append_assoc]
    · rw [List.foldl_cons, h4]; simp [sampleStep, List.append_assoc]
    · rw [List.foldl_cons, h5]; simp [sampleStep, List.append_assoc]

lemma processExample_spec (cfg : Config) (st : EpochState × BatchAcc) (ex : ExampleInput) :
    (processExample cfg st ex).2.net_policies
      = st.2.net_policies ++ (exRecorded cfg ex).map (fun p => p.1.policies) ∧
    (processExample cfg st ex).2.net_actions
      = st.2.net_actions ++ ((exRecorded cfg ex).map (fun p => p.1.actions)).flatten ∧
    (processExample cfg st ex).2.net_advantages
      = st.2.net_advantages
          ++ ((exRecorded cfg ex).map
                (fun p => List.replicate p.1.actions.length p.2)).flatten ∧
    (processExample cfg st ex).1.skipped_samples
      = st.1.skipped_samples + (if skips cfg ex then 1 else 0) ∧
    (processExample cfg st ex).1.dial_shown
      = (if skips cfg ex then st.1.dial_shown else true) := by
  by_cases h : skips cfg ex
  · simp [processExample, h, exRecorded]
  · obtain ⟨h1, h2, h3, h4, h5⟩ := foldl_sampleStep_spec cfg (refIndicesOf ex)
      (cfg.bleu ex.greedyActions (refIndicesOf ex)) (ex.samples.take cfg.numSamples)
      ({ st.1 with
          total_samples := st.1.total_samples + 1,
          bleus_argmax :=
            st.1.bleus_argmax ++ [cfg.bleu ex.greedyActions (refIndicesOf ex)] }, st.2)
    refine ⟨?_, ?_, ?_, ?_, ?_⟩ <;>
      simp [processExample, h, exRecorded, trajAdvantage, List.map_map, h1, h2, h3, h4, h5,
            Function.comp_def]

lemma recordedOf_nil (cfg : Config) : recordedOf cfg [] = [] := by
  simp [recordedOf]

lemma recordedOf_cons (cfg : Config) (ex : ExampleInput) (batch : List ExampleInput) :
    recordedOf cfg (ex :: batch) = exRecorded cfg ex ++ recordedOf cfg batch := by
  by_cases h : skips cfg ex <;>
    simp [recordedOf, exRecorded, List.filter_cons, h]

lemma foldl_processExample_acc (cfg : Config) :
    ∀ (batch : List ExampleInput) (st : EpochState × BatchAcc),
      ((batch.foldl (processExample cfg) st).2.net_policies
        = st.2.net_policies ++ (recordedOf cfg batch).map (fun p => p.1.policies)) ∧
      ((batch.foldl (processExample cfg) st).2.net_actions
        = st.2.net_actions ++ ((recordedOf cfg batch).map (fun p => p.1.actions)).flatten) ∧
      ((batch.foldl (processExample cfg) st).2.net_advantages
        = st.2.net_advantages ++ ((recordedOf cfg batch).map
            (fun p => List.replicate p.1.actions.length p.2)).flatten)
  | [], st => by simp [recordedOf_nil]
  | ex :: rest, st => by
    obtain ⟨i1, i2, i3⟩ := foldl_processExample_acc cfg rest (processExample cfg st ex)
    obtain ⟨e1, e2, e3, _, _⟩ := processExample_spec cfg st ex
    refine ⟨?_, ?_, ?_⟩ <;>
      simp [List.foldl_cons, i1, i2, i3, e1, e2, e3, recordedOf_cons, List.map_append,
            List.flatten_append, List.append_assoc]

/-- Indexing the concatenated policies/actions/advantages at `i` and summing
over `i < len(net_actions)` is the same as walking the recorded trajectories
one by one — provided every trajectory's distribution rows align 1:1 with
its tokens. -/
lemma terms_flatten :
    ∀ (recorded : List (Trajectory × ℚ)),
      (∀ p ∈ recorded, p.1.policies.length = p.1.actions.length) →
      (List.range ((recorded.map (fun p => p.1.actions)).flatten.length)).map
          (fun i =>
            ((((recorded.map (fun p => List.replicate p.1.actions.length p.2)).flatten).getD i 0
                : ℚ) : ℝ) *
              logSoftmaxAt (((recorded.map (fun p => p.1.policies)).flatten).getD i [])
                (((recorded.map (fun p => p.1.actions)).flatten).getD i 0))
        = (recorded.map specTrajectoryTerms).flatten
  | [], _ => by simp
  | p :: rest, h => by
    have hp : p.1.policies.length = p.1.actions.length := h p (List.mem_cons_self p rest)
    have hrest := terms_flatten rest (fun q hq => h q (List.mem_cons_of_mem p hq))
    simp only [List.map_cons, List.flatten_cons, List.length_append, List.range_add,
      List.map_append, List.map_map]
    congr 1
    · simp only [specTrajectoryTerms]
      refine List.map_congr_left (fun i hi => ?_)
      have hin : i < p.1.actions.length := List.mem_range.1 hi
      rw [List.getD_append _ _ _ _ (by simpa using hin),
          List.getD_append _ _ _ _ (by rw [hp]; exact hin),
          List.getD_append _ _ _ _ hin,
          List.getD_eq_getElem _ _ (by simpa using hin), List.getElem_replicate]
    · rw [← hrest]
      refine List.map_congr_left (fun j hj => ?_)
      simp only [Function.comp]
      rw [List.getD_append_right _ _ _ _ (by simp),
          List.getD_append_right _ _ _ _ (by rw [hp]; exact Nat.le_add_right _ _),
          List.getD_append_right _ _ _ _ (Nat.le_add_right _ _)]
      simp [hp]

/-- The loss the code computes on the concatenated accumulators equals the
spec-side per-trajectory loss. -/
lemma loss_policy_v_flatten (recorded : List (Trajectory × ℚ))
    (h : ∀ p ∈ recorded, p.1.policies.length = p.1.actions.length) :
    loss_policy_v ((recorded.map (fun p => p.1.policies)).flatten)
        ((recorded.map (fun p => p.1.actions)).flatten)
        ((recorded.map (fun p => List.replicate p.1.actions.length p.2)).flatten)
      = specLoss recorded := by
  unfold loss_policy_v specLoss
  rw [terms_flatten recorded h]
  congr 2
  simp [List.length_flatten, List.map_map, Function.comp_def]

lemma processBatch_acc (cfg : Config) (st : EpochState) (batch : List ExampleInput) :
    (processBatch cfg st batch).2.net_policies
      = (recordedOf cfg batch).map (fun p => p.1.policies) ∧
    (processBatch cfg st batch).2.net_actions
      = ((recordedOf cfg batch).map (fun p => p.1.actions)).flatten ∧
    (processBatch cfg st batch).2.net_advantages
      = ((recordedOf cfg batch).map
          (fun p => List.replicate p.1.actions.length p.2)).flatten := by
  obtain ⟨h1, h2, h3⟩ := foldl_processExample_acc cfg batch (st, accInit)
  simpa [processBatch, accInit] using ⟨h1, h2, h3⟩

/-- Every recorded trajectory of a batch comes from the sample stream of one
of its examples. -/
lemma mem_recordedOf (cfg : Config) (batch : List ExampleInput) (p : Trajectory × ℚ)
    (hp : p ∈ recordedOf cfg batch) : ∃ ex ∈ batch, p.1 ∈ ex.samples := by
  rw [recordedOf, List.mem_flatten] at hp
  obtain ⟨l, hl, hpl⟩ := hp
  obtain ⟨ex, hex, rfl⟩ := List.mem_map.1 hl
  obtain ⟨t, ht, rfl⟩ := List.mem_map.1 hpl
  exact ⟨ex, (List.mem_filter.1 hex).1, List.mem_of_mem_take ht⟩

/-- A batch all of whose examples satisfy the skip condition records no
trajectory at all. -/
lemma recordedOf_all_skipped (cfg : Config) :
    ∀ (batch : List ExampleInput), (∀ ex ∈ batch, skips cfg ex = true) →
      recordedOf cfg batch = []
  | [], _ => recordedOf_nil cfg
  | ex :: rest, h => by
    rw [recordedOf_cons]
    have hx : skips cfg ex = true := h ex (List.mem_cons_self ex rest)
    rw [recordedOf_all_skipped cfg rest (fun e he => h e (List.mem_cons_of_mem ex he))]
    simp [exRecorded, hx]

/-! ## Helper lemmas for the best-score tracker -/

lemma bestAfter_mono : ∀ (tests : List ℚ) (v : ℚ),
    ∃ w, bestAfter tests (some v) = some w ∧ v ≤ w
  | [], v => ⟨v, rfl, le_refl v⟩
  | t :: rest, v => by
    by_cases h : v < t
    · obtain ⟨w, hw, htw⟩ := bestAfter_mono rest t
      exact ⟨w, by simpa [bestAfter, updateBest, h] using hw, le_trans (le_of_lt h) htw⟩
    · obtain ⟨w, hw, hvw⟩ := bestAfter_mono rest v
      exact ⟨w, by simpa [bestAfter, updateBest, h] using hw, hvw⟩

lemma updateBest_saved_iff (b : Option ℚ) (t : ℚ) :
    (updateBest b t).2 = true ↔ (updateBest b t).1 ≠ b := by
  cases b with
  | none => simp [updateBest]
  | some v =>
    by_cases h : v < t
    · simpa [updateBest, h] using (ne_of_gt h)
    · simp [updateBest, h]

/-! ## Helper lemmas for the fold-max reward scorer -/

lemma le_foldl_max (l : List ℚ) : ∀ s : ℚ, s ≤ l.foldl max s := by
  induction l with
  | nil => intro s; simp
  | cons x xs ih =>
    intro s
    simpa using le_trans (le_max_left s x) (ih (max s x))

lemma mem_le_foldl_max (l : List ℚ) : ∀ (s x : ℚ), x ∈ l → x ≤ l.foldl max s := by
  induction l with
  | nil => simp
  | cons y ys ih =>
    intro s x hx
    rcases List.mem_cons.1 hx with h | h
    · subst h
      simpa using le_trans (le_max_right s x) (le_foldl_max ys (max s x))
    · simpa using ih (max s y) x h

lemma foldl_max_mem (l : List ℚ) : ∀ s : ℚ, l.foldl max s = s ∨ l.foldl max s ∈ l := by
  induction l with
  | nil => intro s; left; rfl
  | cons y ys ih =>
    intro s
    rcases ih (max s y) with h | h
    · rcases le_total s y with hsy | hys
      · right
        rw [List.foldl_cons, h, max_eq_right hsy]
        exact List.mem_cons_self y ys
      · left
        rw [List.foldl_cons, h, max_eq_left hys]
    · right
      rw [List.foldl_cons]
      exact List.mem_cons_of_mem y h

/-! ## Helper lemmas for the evaluation runner -/

lemma foldl_sum_count {α : Type} (f : α → ℚ) :
    ∀ (d : List α) (a : ℚ) (n : Nat),
      d.foldl (fun acc p => (acc.1 + f p, acc.2 + 1)) (a, n)
        = (a + (d.map f).sum, n + d.length)
  | [], a, n => by simp
  | p :: rest, a, n => by
    rw [List.foldl_cons, foldl_sum_count f rest (a + f p) (n + 1)]
    simp [add_assoc, add_comm, add_left_comm]

/-! ## Helper lemmas for the diagnostic flag -/

lemma foldl_processExample_dial_true (cfg : Config) :
    ∀ (batch : List ExampleInput) (st : EpochState × BatchAcc),
      st.1.dial_shown = true → (batch.foldl (processExample cfg) st).1.dial_shown = true
  | [], _, h => h
  | ex :: rest, st, h => by
    obtain ⟨_, _, _, _, hd⟩ := processExample_spec cfg st ex
    refine foldl_processExample_dial_true cfg rest (processExample cfg st ex) ?_
    rw [hd, h]
    by_cases hs : skips cfg ex <;> simp [hs]

lemma loggedCount_of_shown (cfg : Config) :
    ∀ (l : List ExampleInput) (st : EpochState × BatchAcc),
      st.1.dial_shown = true → loggedCount cfg st l = 0
  | [], _, _ => rfl
  | ex :: rest, st, h => by
    obtain ⟨_, _, _, _, hd⟩ := processExample_spec cfg st ex
    have hnext : (processExample cfg st ex).1.dial_shown = true := by
      rw [hd, h]; by_cases hs : skips cfg ex <;> simp [hs]
    rw [loggedCount, loggedCount_of_shown cfg rest _ hnext, exampleLogged, h]
    simp

lemma loggedCount_le_one_of_not_shown (cfg : Config) :
    ∀ (l : List ExampleInput) (st : EpochState × BatchAcc),
      st.1.dial_shown = false → loggedCount cfg st l ≤ 1
  | [], _, _ => Nat.zero_le 1
  | ex :: rest, st, h => by
    obtain ⟨_, _, _, _, hd⟩ := processExample_spec cfg st ex
    by_cases hs : skips cfg ex
    · have hnext : (processExample cfg st ex).1.dial_shown = false := by rw [hd]; simp [hs, h]
      rw [loggedCount, exampleLogged, hs]
      simpa using loggedCount_le_one_of_not_shown cfg rest _ hnext
    · have hnext : (processExample cfg st ex).1.dial_shown = true := by rw [hd]; simp [hs]
      rw [loggedCount, loggedCount_of_shown cfg rest _ hnext]
      split <;> simp

lemma loggedCount_le_one (cfg : Config) (l : List ExampleInput) (st : EpochState × BatchAcc) :
    loggedCount cfg st l ≤ 1 := by
  rcases Bool.eq_false_or_eq_true st.1.dial_shown with h | h
  · rw [loggedCount_of_shown cfg l st h]; exact Nat.zero_le 1
  · exact loggedCount_le_one_of_not_shown cfg l st h

lemma loggedCount_zero_of_dial_stays_false (cfg : Config) :
    ∀ (l : List ExampleInput) (st : EpochState × BatchAcc),
      st.1.dial_shown = false → (l.foldl (processExample cfg) st).1.dial_shown = false →
      loggedCount cfg st l = 0
  | [], _, _, _ => rfl
  | ex :: rest, st, h0, hend => by
    obtain ⟨_, _, _, _, hd⟩ := processExample_spec cfg st ex
    by_cases hs : skips cfg ex
    · have hnext : (processExample cfg st ex).1.dial_shown = false := by rw [hd]; simp [hs, h0]
      rw [loggedCount, exampleLogged, hs,
        loggedCount_zero_of_dial_stays_false cfg rest _ hnext
          (by rw [← List.foldl_cons]; exact hend)]
      simp
    · exfalso
      have hnext : (processExample cfg st ex).1.dial_shown = true := by rw [hd]; simp [hs]
      have := foldl_processExample_dial_true cfg rest (processExample cfg st ex) hnext
      rw [List.foldl_cons] at hend
      rw [this] at hend
      simp at hend

lemma epochLoggedCount_of_shown (cfg : Config) :
    ∀ (batches : List (List ExampleInput)) (es : EpochState),
      es.dial_shown = true → epochLoggedCount cfg es batches = 0
  | [], _, _ => rfl
  | batch :: rest, es, h => by
    have hb : (processBatch cfg es batch).1.dial_shown = true :=
      foldl_processExample_dial_true cfg batch (es, accInit) h
    rw [epochLoggedCount, loggedCount_of_shown cfg batch (es, accInit) h,
      epochLoggedCount_of_shown cfg rest _ hb]

lemma epochLoggedCount_le_one (cfg : Config) :
    ∀ (batches : List (List ExampleInput)) (es : EpochState),
      es.dial_shown = false → epochLoggedCount cfg es batches ≤ 1
  | [], _, _ => Nat.zero_le 1
  | batch :: rest, es, h => by
    rw [epochLoggedCount]
    rcases Bool.eq_false_or_eq_true (processBatch cfg es batch).1.dial_shown with hb | hb
    · rw [epochLoggedCount_of_shown cfg rest _ hb]
      simpa using loggedCount_le_one cfg batch (es, accInit)
    · rw [loggedCount_zero_of_dial_stays_false cfg batch (es, accInit) h hb]
      simpa using epochLoggedCount_le_one cfg rest _ hb

/-! ## Claim theorems -/

/-- C1: for every batch that reaches the loss computation (the recorded
`net_policies` are non-empty), provided every sampled trajectory's
distribution rows align 1:1 with its generated tokens, the loss the code
computes on the concatenated accumulators equals the negative mean, over
every generated token of every recorded sampled trajectory, of that token's
advantage multiplied by the log-softmax probability of the actually
generated token under its own trajectory's output distribution
(`specLoss`). -/
theorem loss_is_negative_mean_of_weighted_logprobs {P : Type} (cfg : Config)
    (opt_step : P → ℝ → P) (st : EpochState) (params : P) (batch : List ExampleInput)
    (halign : ∀ ex ∈ batch, ∀ t ∈ ex.samples, t.policies.length = t.actions.length)
    (hne : (processBatch cfg st batch).2.net_policies ≠ []) :
    (batchUpdate cfg opt_step st params batch).tracked
      = some ((processBatch cfg st batch).2.net_advantages,
              specLoss (recordedOf cfg batch)) := by
  obtain ⟨h1, h2, h3⟩ := processBatch_acc cfg st batch
  have halign' : ∀ p ∈ recordedOf cfg batch, p.1.policies.length = p.1.actions.length := by
    intro p hp
    obtain ⟨ex, hex, ht⟩ := mem_recordedOf cfg batch p hp
    exact halign ex hex p.1 ht
  simp only [batchUpdate]
  rw [if_neg hne]
  rw [h1, h2, h3, loss_policy_v_flatten (recordedOf cfg batch) halign']

/-- Closed instantiation of the C1 theorem at a one-example batch with one
aligned single-token trajectory. -/
theorem loss_is_negative_mean_of_weighted_logprobs_witness :
    ((∀ ex ∈ [exOneSample], ∀ t ∈ ex.samples, t.policies.length = t.actions.length) ∧
      (processBatch cfgNoSkip initEpochState [exOneSample]).2.net_policies ≠ []) ∧
    (batchUpdate cfgNoSkip (fun (p : Nat) _ => p) initEpochState 0 [exOneSample]).tracked
      = some ((processBatch cfgNoSkip initEpochState [exOneSample]).2.net_advantages,
              specLoss (recordedOf cfgNoSkip [exOneSample])) :=
  ⟨⟨by decide, by decide⟩,
   loss_is_negative_mean_of_weighted_logprobs cfgNoSkip (fun p _ => p) initEpochState 0
     [exOneSample] (by decide) (by decide)⟩

/-- C2: with skipping enabled and the greedy BLEU strictly above `0.99`, an
example contributes nothing to the batch accumulators, records no sample
score, and bumps the skipped-sample counter by exactly 1. -/
theorem skipped_example_contributes_nothing (cfg : Config) (st : EpochState × BatchAcc)
    (ex : ExampleInput) (hskip : cfg.disableSkip = false)
    (hb : SKIP_THRESHOLD < cfg.bleu ex.greedyActions (refIndicesOf ex)) :
    (processExample cfg st ex).2 = st.2 ∧
    (processExample cfg st ex).1.skipped_samples = st.1.skipped_samples + 1 ∧
    (processExample cfg st ex).1.bleus_sample = st.1.bleus_sample := by
  have hs : skips cfg ex = true := by simp [skips, hskip, hb]
  refine ⟨?_, ?_, ?_⟩ <;> simp [processExample, hs]

/-- Closed instantiation of the C2 theorem: a scorer constantly equal to 1
forces the skip branch. -/
theorem skipped_example_contributes_nothing_witness :
    ((cfgAllSkip.disableSkip = false) ∧
      SKIP_THRESHOLD < cfgAllSkip.bleu exEmpty.greedyActions (refIndicesOf exEmpty)) ∧
    (processExample cfgAllSkip (initEpochState, accInit) exEmpty).2 = accInit ∧
    (processExample cfgAllSkip (initEpochState, accInit) exEmpty).1.skipped_samples
      = initEpochState.skipped_samples + 1 ∧
    (processExample cfgAllSkip (initEpochState, accInit) exEmpty).1.bleus_sample
      = initEpochState.bleus_sample :=
  ⟨⟨rfl, by decide⟩,
   skipped_example_contributes_nothing cfgAllSkip (initEpochState, accInit) exEmpty rfl
     (by decide)⟩

/-- C3: a batch whose examples all satisfy the skip condition records no
sampled trajectory; the batch is abandoned with the model parameters
unchanged and no advantage/loss scalars tracked. -/
theorem all_skipped_batch_no_update {P : Type} (cfg : Config) (opt_step : P → ℝ → P)
    (st : EpochState) (params : P) (batch : List ExampleInput)
    (h : ∀ ex ∈ batch, skips cfg ex = true) :
    (processBatch cfg st batch).2.net_policies = [] ∧
    (batchUpdate cfg opt_step st params batch).params = params ∧
    (batchUpdate cfg opt_step st params batch).tracked = none := by
  obtain ⟨h1, _, _⟩ := processBatch_acc cfg st batch
  have hempty : (processBatch cfg st batch).2.net_policies = [] := by
    rw [h1, recordedOf_all_skipped cfg batch h]
    rfl
  refine ⟨hempty, ?_, ?_⟩ <;> simp [batchUpdate, hempty]

/-- Closed instantiation of the C3 theorem: one all-skipped batch leaves the
(`Nat`-modelled) parameters at their initial value and tracks nothing. -/
theorem all_skipped_batch_no_update_witness :
    (∀ ex ∈ [exEmpty], skips cfgAllSkip ex = true) ∧
    (processBatch cfgAllSkip initEpochState [exEmpty]).2.net_policies = [] ∧
    (batchUpdate cfgAllSkip (fun (p : Nat) _ => p + 1) initEpochState 0 [exEmpty]).params = 0 ∧
    (batchUpdate cfgAllSkip (fun (p : Nat) _ => p + 1) initEpochState 0 [exEmpty]).tracked
      = none :=
  ⟨by decide,
   all_skipped_batch_no_update cfgAllSkip (fun p _ => p + 1) initEpochState 0 [exEmpty]
     (by decide)⟩

/-- C4: a non-skipped example extends `net_advantages` by, for each taken
sampled trajectory, its advantage `sample_bleu - argmax_bleu` repeated once
per generated token; every such entry is positive when the sampled reward
strictly exceeds the greedy reward, negative when strictly below, zero when
equal. -/
theorem advantage_broadcast_and_sign (cfg : Config) (st : EpochState × BatchAcc)
    (ex : ExampleInput) (h : skips cfg ex = false) :
    (processExample cfg st ex).2.net_advantages
      = st.2.net_advantages
          ++ ((ex.samples.take cfg.numSamples).map
                (fun t => List.replicate t.actions.length (trajAdvantage cfg ex t))).flatten ∧
    (∀ t ∈ ex.samples.take cfg.numSamples,
      ∀ x ∈ List.replicate t.actions.length (trajAdvantage cfg ex t),
        (cfg.bleu ex.greedyActions (refIndicesOf ex) < cfg.bleu t.actions (refIndicesOf ex) →
          0 < x) ∧
        (cfg.bleu t.actions (refIndicesOf ex) < cfg.bleu ex.greedyActions (refIndicesOf ex) →
          x < 0) ∧
        (cfg.bleu t.actions (refIndicesOf ex) = cfg.bleu ex.greedyActions (refIndicesOf ex) →
          x = 0)) := by
  constructor
  · obtain ⟨_, _, e3, _, _⟩ := processExample_spec cfg st ex
    rw [e3]
    simp [exRecorded, h, List.map_map, Function.comp_def]
  · intro t ht x hx
    have hxval : x = trajAdvantage cfg ex t := List.eq_of_mem_replicate hx
    subst hxval
    unfold trajAdvantage
    exact ⟨fun hlt => by linarith, fun hlt => by linarith, fun heq => by rw [heq]; ring⟩

/-- Closed instantiation of the C4 theorem at a one-sample example under the
never-skipping scorer. -/
theorem advantage_broadcast_and_sign_witness :
    skips cfgNoSkip exOneSample = false ∧
    (processExample cfgNoSkip (initEpochState, accInit) exOneSample).2.net_advantages
      = accInit.net_advantages
          ++ ((exOneSample.samples.take cfgNoSkip.numSamples).map
                (fun t => List.replicate t.actions.length
                  (trajAdvantage cfgNoSkip exOneSample t))).flatten :=
  ⟨by decide,
   (advantage_broadcast_and_sign cfgNoSkip (initEpochState, accInit) exOneSample
      (by decide)).1⟩

/-- C5: at the point of loss computation the length of `net_actions` is the
total number of generated tokens over all recorded sampled trajectories
(the taken samples of the non-skipped examples), and `net_advantages` has
the same length as `net_actions`. -/
theorem accumulator_length_invariant (cfg : Config) (st : EpochState)
    (batch : List ExampleInput) :
    (processBatch cfg st batch).2.net_actions.length
      = ((batch.filter (fun ex => !(skips cfg ex))).map
          (fun ex => ((ex.samples.take cfg.numSamples).map
            (fun t => t.actions.length)).sum)).sum ∧
    (processBatch cfg st batch).2.net_advantages.length
      = (processBatch cfg st batch).2.net_actions.length := by
  obtain ⟨_, h2, h3⟩ := processBatch_acc cfg st batch
  constructor
  · rw [h2]
    simp [recordedOf, List.length_flatten, List.map_flatten, List.map_map,
      Function.comp_def, List.sum_flatten, List.map_take]
  · rw [h3, h2]
    simp [List.length_flatten, List.map_map, Function.comp_def]

/-- C6: the reward scorer returns the maximum pairwise similarity against a
non-empty reference set, and returns the minimum score 0 (instead of
failing) on an empty generated sequence. -/
theorem reward_is_max_and_empty_safe (sim : List Nat → List Nat → ℚ) (g : List Nat)
    (R : List (List Nat)) (hR : R ≠ []) :
    (g ≠ [] →
      (∀ r ∈ R, sim g r ≤ calc_bleu_many sim g R) ∧
      ∃ r ∈ R, calc_bleu_many sim g R = sim g r) ∧
    calc_bleu_many sim [] R = 0 := by
  constructor
  · intro hg
    cases R with
    | nil => exact absurd rfl hR
    | cons r0 rs =>
      have hcalc : calc_bleu_many sim g (r0 :: rs)
          = (rs.map (sim g)).foldl max (sim g r0) := by
        simp [calc_bleu_many, hg]
      constructor
      · intro r hr
        rcases List.mem_cons.1 hr with hh | hh
        · subst hh; rw [hcalc]; exact le_foldl_max _ _
        · rw [hcalc]
          exact mem_le_foldl_max _ _ _ (List.mem_map_of_mem _ hh)
      · rcases foldl_max_mem (rs.map (sim g)) (sim g r0) with hh | hh
        · exact ⟨r0, List.mem_cons_self r0 rs, by rw [hcalc, hh]⟩
        · obtain ⟨r, hr, hrv⟩ := List.mem_map.1 hh
          exact ⟨r, List.mem_cons_of_mem r0 hr, by rw [hcalc, ← hrv]⟩
  · simp [calc_bleu_many]

/-- Closed instantiation of the C6 theorem at a two-reference set. -/
theorem reward_is_max_and_empty_safe_witness :
    (([[2], [3]] : List (List Nat)) ≠ []) ∧
    ((([0] : List Nat) ≠ []) →
      (∀ r ∈ ([[2], [3]] : List (List Nat)),
        (fun (a : List Nat) (b : List Nat) => ((a.length + b.length : ℕ) : ℚ)) [0] r
          ≤ calc_bleu_many (fun a b => ((a.length + b.length : ℕ) : ℚ)) [0] [[2], [3]]) ∧
      ∃ r ∈ ([[2], [3]] : List (List Nat)),
        calc_bleu_many (fun a b => ((a.length + b.length : ℕ) : ℚ)) [0] [[2], [3]]
          = (fun (a : List Nat) (b : List Nat) => ((a.length + b.length : ℕ) : ℚ)) [0] r) ∧
    calc_bleu_many (fun (a : List Nat) (b : List Nat) => ((a.length + b.length : ℕ) : ℚ))
        [] [[2], [3]] = 0 :=
  ⟨by decide,
   (reward_is_max_and_empty_safe (fun a b => ((a.length + b.length : ℕ) : ℚ)) [0] [[2], [3]]
      (by decide)).1,
   (reward_is_max_and_empty_safe (fun a b => ((a.length + b.length : ℕ) : ℚ)) [0] [[2], [3]]
      (by decide)).2⟩

/-- C7: the best-score tracker starts unset, an unset tracker always
updates, a set tracker updates exactly when the new test metric strictly
exceeds it, a best checkpoint save is requested exactly when the tracker
changes, and the tracker is monotone over any sequence of per-epoch
updates. -/
theorem best_score_tracker_behaviour (b : Option ℚ) (t v : ℚ) (tests : List ℚ) :
    best_bleu_init = none ∧
    updateBest none t = (some t, true) ∧
    ((updateBest (some v) t).2 = true ↔ v < t) ∧
    ((updateBest b t).2 = true ↔ (updateBest b t).1 ≠ b) ∧
    ∃ w, bestAfter tests (some v) = some w ∧ v ≤ w := by
  refine ⟨rfl, rfl, ?_, updateBest_saved_iff b t, bestAfter_mono tests v⟩
  by_cases h : v < t <;> simp [updateBest, h]

/-- C8 counterexample: a concrete epoch in which the state entering the
second batch — the epoch state produced by the first batch, which the loop
threads through unchanged because `dial_shown` is reset only at the top of
the epoch loop (line 99) — carries `dial_shown = true`, refuting "at the
start of every batch the flag is false". -/
theorem dial_shown_true_entering_second_batch :
    (processBatch cfgNoSkip initEpochState [exEmpty]).1.dial_shown = true := by
  decide

/-- C8 (amended): `dial_shown` is reset once per epoch, at the start of
every epoch it is false, and at most one example per epoch (hence at most
one per batch) has its diagnostics logged. -/
theorem dial_shown_epoch_scope (cfg : Config) (batches : List (List ExampleInput)) :
    initEpochState.dial_shown = false ∧
    epochLoggedCount cfg initEpochState batches ≤ 1 :=
  ⟨rfl, epochLoggedCount_le_one cfg batches initEpochState rfl⟩

/-- C9: the evaluation runner returns the network unchanged (no gradient
step exists in its code path), and running it a second time on the returned
network yields the identical test metric. -/
theorem run_test_idempotent_and_pure {E : Type}
    (test_data : List (List Nat × List (List Nat))) (net : Net E)
    (bleu : List Nat → List (List Nat) → ℚ) :
    (run_test test_data net bleu).2 = net ∧
    (run_test test_data ((run_test test_data net bleu).2) bleu).1
      = (run_test test_data net bleu).1 :=
  ⟨rfl, rfl⟩

/-- C10: on a non-empty evaluation set `run_test` returns the arithmetic
mean of the per-example scores; on the empty set `bleu_count` stays 0 and
the final division has a zero divisor, so no metric is produced. -/
theorem run_test_mean_requires_nonempty {E : Type}
    (test_data : List (List Nat × List (List Nat))) (net : Net E)
    (bleu : List Nat → List (List Nat) → ℚ) (h : test_data ≠ []) :
    (run_test test_data net bleu).1
      = some ((test_data.map (testScore net bleu)).sum / (test_data.length : ℚ)) ∧
    (run_test ([] : List (List Nat × List (List Nat))) net bleu).1 = none := by
  constructor
  · have hfold : test_data.foldl
        (fun (acc : ℚ × Nat) p =>
          (acc.1 + bleu (net.decode_chain_argmax (net.encode p.1))
              (p.2.map (fun indices => indices.drop 1)), acc.2 + 1)) (0, 0)
        = ((test_data.map (testScore net bleu)).sum, test_data.length) := by
      simpa [testScore] using foldl_sum_count (testScore net bleu) test_data 0 0
    have hlen : ¬(test_data.length = 0) := fun hc => h (List.length_eq_zero.1 hc)
    simp only [run_test]
    rw [hfold, if_neg hlen]
  · rfl

/-- Closed instantiation of the C10 theorem at a one-pair evaluation set. -/
theorem run_test_mean_requires_nonempty_witness :
    (([(([] : List Nat), [[0], [1]])] : List (List Nat × List (List Nat))) ≠ []) ∧
    (run_test [(([] : List Nat), [[0], [1]])] netId (fun _ _ => 1)).1
      = some (([(([] : List Nat), [[0], [1]])].map
            (testScore netId (fun _ _ => 1))).sum
          / (([(([] : List Nat), [[0], [1]])] : List (List Nat × List (List Nat))).length : ℚ)) :=
  ⟨by decide,
   (run_test_mean_requires_nonempty [(([] : List Nat), [[0], [1]])] netId (fun _ _ => 1)
      (by decide)).1⟩

end SCST
